import Mathlib

/-!
Verification of the rollback-capable scaffolding engine of create-express-app.

The definitions below are a shallow embedding of `src/builder/index.ts`
(classes SafeBuilder, BuilderHelper, ProjectBuilder), `src/utils.ts` and
`src/prompts.ts`.  Each definition carries a comment pointing at the source
it embeds.  External effects (the npm registry, the interactive prompt
renderer, the file system, the process working directory) are made explicit:
the registry is a function parameter, prompt answers are parameters, and the
file system together with the working directory form an explicit state that
operations thread through while emitting an event trace.
-/

namespace CreateExpressApp

/-! ## Layer A: the rollback ledger and the safe wrappers

Embeds SafeBuilder.trackStep, SafeBuilder.rollback, SafeBuilder.safe and
SafeBuilder.safeSync (builder/index.ts).  A rollback action is abstracted to
an identifier plus a flag saying whether its invocation throws; `rollback`
catches every such failure and keeps going, so the list of invoked action
identifiers is independent of the flags. -/

/-- One tracked rollback action: an identifier and whether invoking it throws. -/
structure RStep where
  sid : Nat
  fails : Bool
deriving DecidableEq, Repr

/-- The ledger state of SafeBuilder: the tracked steps in registration order
and the rolled-back flag. -/
structure Ledger where
  steps : List RStep
  rolledBack : Bool
deriving DecidableEq, Repr

/-- SafeBuilder.trackStep: push the action onto the steps list. -/
def trackStep (l : Ledger) (s : RStep) : Ledger :=
  { l with steps := l.steps ++ [s] }

/-- A ledger built by registering the given actions, in order, on a fresh
builder. -/
def ledgerOf (as : List RStep) : Ledger :=
  as.foldl trackStep ⟨[], false⟩

/-- SafeBuilder.rollback: if already rolled back, return at once; otherwise
invoke every tracked step, reversing the steps array in place first
(this.steps.reverse() mutates), each invocation wrapped in try/catch so a
failing step never blocks the remaining ones; finally set the flag.  The
result is the list of invoked action identifiers in invocation order,
together with the updated ledger.  The function is total: it never raises. -/
def rollbackRun (l : Ledger) : List Nat × Ledger :=
  if l.rolledBack then ([], l)
  else (l.steps.reverse.map (fun s => s.sid), ⟨l.steps.reverse, true⟩)

/-- SafeBuilder.safe: run the async operation; on success return its result
untouched; on failure await rollback to completion, then re-raise the same
error.  The middle component is the list of rollback actions that have run
before the error reaches the caller. -/
def safeRun {E A : Type} (l : Ledger) (op : Except E A) : Except E A × List Nat × Ledger :=
  match op with
  | .ok a => (.ok a, [], l)
  | .error e =>
      let r := rollbackRun l
      (.error e, r.1, r.2)

/-- Outcome of SafeBuilder.safeSync: the result seen by the caller, the
rollback actions completed before the error reaches the caller, the actions
still pending on the microtask queue at that moment, and the ledger once the
pending actions have drained. -/
structure SyncOutcome (E : Type) where
  result : Except E Unit
  beforeRaise : List Nat
  afterRaise : List Nat
  finalLedger : Ledger
deriving Repr

/-- SafeBuilder.safeSync: run the synchronous operation; on failure it calls
this.rollback() WITHOUT awaiting the returned promise and then throws.
Because rollback is an async function, only its synchronous part runs before
the throw: the guard, the log, and — when at least one step is tracked — the
first invocation of the reversed steps list (the JS await suspends after it).
The remaining invocations and the setting of the rolled-back flag run later
on the microtask queue, after the error has already reached the caller. -/
def safeSyncRun {E : Type} (l : Ledger) (op : Except E Unit) : SyncOutcome E :=
  match op with
  | .ok _ => ⟨.ok (), [], [], l⟩
  | .error e =>
      if l.rolledBack then ⟨.error e, [], [], l⟩
      else
        match l.steps.reverse with
        | [] => ⟨.error e, [], [], ⟨[], true⟩⟩
        | s :: rest =>
            ⟨.error e, [s.sid], rest.map (fun t => t.sid), ⟨l.steps.reverse, true⟩⟩

/-! ## Layer B: the file system, the working directory, and the concrete
rollback steps the builder registers

Paths are component lists; the file system is the list of existing nodes.
Every event is recorded together with the working directory in effect when
it executes. -/

/-- A file-system path, as a list of components. -/
abbrev Path := List String

/-- The file system: the list of existing nodes. -/
abbrev FS := List Path

/-- fs.existsSync. -/
def fsExists (fs : FS) (p : Path) : Bool := fs.contains p

/-- fs.rmSync with recursive and force: remove the node and everything
below it; no error when absent. -/
def rmRecFS (fs : FS) (p : Path) : FS :=
  fs.filter (fun q => !(p.isPrefixOf q))

/-- fs.rmSync with force on a single file. -/
def rmFileFS (fs : FS) (p : Path) : FS :=
  fs.filter (fun q => q ≠ p)

/-- fs.mkdirSync. -/
def mkdirFS (fs : FS) (p : Path) : FS := p :: fs

/-- Process-wide state: the working directory and the file system. -/
structure World where
  cwd : Path
  fs : FS
deriving DecidableEq, Repr

/-- Observable events emitted by the builder and its rollback steps. -/
inductive Ev where
  | chdir (p : Path)
  | rmRec (p : Path)
  | rmFile (p : Path)
  | mkdir (p : Path)
  | promptOverwrite
  | logAbort
deriving DecidableEq, Repr

/-- A trace entry: the event together with the working directory in effect
when the event executes. -/
abbrev Trace := List (Ev × Path)

/-- The shapes of rollback step the builder registers through trackStep:
the project-directory removal registered by ProjectBuilder.handleExistingDir
(chdir to the base path, then remove the target recursively, when it
exists); the force-removal of individual files resolved against the current
working directory (package.json, tsconfig.json, the eslint files, the
generated source files); and the recursive removal of the src directory
registered by ProjectBuilder.createSourceFiles, whose absolute path is
captured at registration time. -/
inductive RegStep where
  | removeDir (base : Path) (pname : String)
  | rmFiles (rels : List Path)
  | rmSrc (srcPath : Path)
deriving DecidableEq, Repr

/-- One iteration of the file-removal rollback loop: resolve the listed
file against the working directory and force-remove it when it exists. -/
def rmFilesStep (acc : Trace × World) (rel : Path) : Trace × World :=
  let p := acc.2.cwd ++ rel
  if fsExists acc.2.fs p then
    (acc.1 ++ [(.rmFile p, acc.2.cwd)], ⟨acc.2.cwd, rmFileFS acc.2.fs p⟩)
  else acc

/-- Execute one registered rollback step, returning its trace and the new
world.  removeDir embeds the closure registered at builder/index.ts
handleExistingDir: if the target exists, chdir to the base path first, then
remove the target recursively.  rmFiles removes each listed file, resolved
against the working directory, when it exists.  rmSrc removes the captured
src path recursively. -/
def runRegStep (w : World) : RegStep → Trace × World
  | .removeDir b n =>
      let t := b ++ [n]
      if fsExists w.fs t then
        ([(.chdir b, w.cwd), (.rmRec t, b)], ⟨b, rmRecFS w.fs t⟩)
      else ([], w)
  | .rmFiles rels => rels.foldl rmFilesStep ([], w)
  | .rmSrc sp => ([(.rmRec sp, w.cwd)], ⟨w.cwd, rmRecFS w.fs sp⟩)

/-- Execute a list of registered steps in order, concatenating traces. -/
def runRegSteps (w : World) : List RegStep → Trace × World
  | [] => ([], w)
  | s :: ss =>
      ((runRegStep w s).1 ++ (runRegSteps (runRegStep w s).2 ss).1,
       (runRegSteps (runRegStep w s).2 ss).2)

/-- The ledger specialised to the concrete step shapes. -/
structure BLedger where
  steps : List RegStep
  rolledBack : Bool
deriving DecidableEq, Repr

/-- The no-op guard at the top of rollback: when the project path is set
and the working directory lies under it, the code re-enters the current
working directory (process.chdir(process.cwd()) changes nothing). -/
def rollbackGuard (pp : Path) (w : World) : Trace :=
  if !pp.isEmpty && pp.isPrefixOf w.cwd then [(.chdir w.cwd, w.cwd)] else []

/-- SafeBuilder.rollback over the concrete steps: the guard, then the steps
run in reverse-of-registration order, then the flag is set. -/
def rollbackWorld (pp : Path) (l : BLedger) (w : World) : Trace × BLedger × World :=
  if l.rolledBack then ([], l, w)
  else (rollbackGuard pp w ++ (runRegSteps w l.steps.reverse).1,
        ⟨l.steps.reverse, true⟩, (runRegSteps w l.steps.reverse).2)

/-- ProjectBuilder.handleExistingDir, with the answer to the overwrite
prompt as a parameter.  It first registers the project-directory removal as
a rollback step; if the target exists it prompts and, on decline, logs and
throws, which the surrounding safe wrapper turns into a rollback followed by
a rethrow; on consent it changes to the base path and removes the target;
finally it creates the target and changes into it. -/
def handleExistingDirRun (b : Path) (n : String) (overwrite : Bool)
    (l : BLedger) (w : World) : Except String Unit × Trace × BLedger × World :=
  let t := b ++ [n]
  let l1 : BLedger := ⟨l.steps ++ [.removeDir b n], l.rolledBack⟩
  if fsExists w.fs t then
    if overwrite then
      let w1 : World := ⟨b, rmRecFS w.fs t⟩
      let w2 : World := ⟨t, mkdirFS w1.fs t⟩
      (.ok (),
        [(.promptOverwrite, w.cwd), (.chdir b, w.cwd), (.rmRec t, b),
         (.mkdir t, b), (.chdir t, b)],
        l1, w2)
    else
      let r := rollbackWorld t l1 w
      (.error "User aborted",
        [(.promptOverwrite, w.cwd), (.logAbort, w.cwd)] ++ r.1,
        r.2.1, r.2.2)
  else
    let w2 : World := ⟨t, mkdirFS w.fs t⟩
    (.ok (), [(.mkdir t, w.cwd), (.chdir t, w.cwd)], l1, w2)

/-- The directory phase of ProjectBuilder.init: handleExistingDir runs
inside an outer safe wrapper, so an error triggers a further rollback (a
no-op after the inner one already ran) and is then rethrown to the caller. -/
def initDirPhase (b : Path) (n : String) (overwrite : Bool)
    (l : BLedger) (w : World) : Except String Unit × Trace × BLedger × World :=
  let r := handleExistingDirRun b n overwrite l w
  match r.1 with
  | .ok _ => r
  | .error e =>
      let rb := rollbackWorld (b ++ [n]) r.2.2.1 r.2.2.2
      (.error e, r.2.1 ++ rb.1, rb.2.1, rb.2.2)

/-- Computable shape check used by the working-directory theorem: every
project-directory-removal step in the ledger targets exactly the given base
and name, and no src-removal step captured the project path itself (in the
code the captured path is the src directory below the project path). -/
def stepOkFor (b : Path) (n : String) : RegStep → Bool
  | .removeDir b2 n2 => b2 == b && n2 == n
  | .rmSrc sp => !(sp == b ++ [n])
  | .rmFiles _ => true

/-! ## The configuration resolver

Embeds BuilderHelper.extractPromptDefaults and BuilderHelper.collectPrompts
(builder/index.ts), over the question records of prompts.ts. -/

/-- LANGUAGE (utils.ts): the two language variants. -/
inductive LANGUAGE where
  | typescript
  | javascript
deriving DecidableEq, Repr

/-- FEATURES (prompts.ts): the selectable feature tags. -/
inductive FEATURES where
  | eslint
  | zod
  | jest
deriving DecidableEq, Repr

/-- The string value of a feature tag in the source enum. -/
def featureTag : FEATURES → String
  | .eslint => "eslint"
  | .zod => "zod"
  | .jest => "jest"

/-- A partially resolved configuration (Partial of PromptAnswers): each
field is either set or absent. -/
structure PartialAnswers where
  language : Option LANGUAGE
  features : Option (List FEATURES)
deriving DecidableEq, Repr

/-- The value found in the default slot of a question: a valid language, a
features array, or anything else (which the extraction ignores). -/
inductive DefVal where
  | lang (l : LANGUAGE)
  | feats (fs : List FEATURES)
  | other
deriving DecidableEq, Repr

/-- The default slot of a question: absent, a plain value, or a function of
the defaults collected so far (a function result of none models a throw,
which the extraction catches and treats as undefined). -/
inductive QDefault where
  | noDefault
  | val (v : DefVal)
  | func (f : PartialAnswers → Option DefVal)

/-- One question record of the prompts array: its name (none when missing)
and its default slot. -/
structure Question where
  qname : Option String
  qdefault : QDefault

/-- One iteration of the extraction loop in extractPromptDefaults: skip
nameless questions; evaluate a function default against the defaults
collected so far, catching a throw; accept a language default only when it
is a valid LANGUAGE value and a features default only when it is an array. -/
def extractDefaultsStep (acc : PartialAnswers) (q : Question) : PartialAnswers :=
  match q.qname with
  | none => acc
  | some nm =>
      let dv : Option DefVal :=
        match q.qdefault with
        | .noDefault => none
        | .val v => some v
        | .func f => f acc
      if nm = "language" then
        match dv with
        | some (.lang l) => { acc with language := some l }
        | _ => acc
      else if nm = "features" then
        match dv with
        | some (.feats fs) => { acc with features := some fs }
        | _ => acc
      else acc

/-- BuilderHelper.extractPromptDefaults: fold the extraction loop over the
question list, starting from the empty partial configuration. -/
def extractPromptDefaults (qs : List Question) : PartialAnswers :=
  qs.foldl extractDefaultsStep ⟨none, none⟩

/-- The object spread that merges the static configuration over the
extracted defaults: a field set in the configuration wins, an unset field
falls back to the extracted default. -/
def mergeConfig (d c : PartialAnswers) : PartialAnswers :=
  ⟨(c.language.orElse (fun _ => d.language)),
   (c.features.orElse (fun _ => d.features))⟩

/-- The default prompts array of prompts.ts: a list question named language
and a checkbox question named features, neither of which declares a default
slot. -/
def defaultPromptsL : List Question :=
  [⟨some "language", .noDefault⟩, ⟨some "features", .noDefault⟩]

/-- The state of BuilderHelper that collectPrompts reads and writes: the
active question specification, the optional static configuration, and the
resolved configuration slot. -/
structure HelperState where
  promptsSpec : List Question
  config : Option PartialAnswers
  promptOrConfig : Option PartialAnswers

/-- What a call to collectPrompts did: merged the static configuration over
the extracted defaults, or ran the interactive prompt. -/
inductive CEvent where
  | merged
  | prompted
deriving DecidableEq, Repr

/-- BuilderHelper.collectPrompts: when a static configuration is present,
merge it over the defaults extracted from the active question specification
(this branch runs on every call); otherwise, when the configuration slot is
still unset, adopt the interactive answers; otherwise do nothing.  The
interactive answers are a parameter standing for the external prompt
renderer. -/
def collectPrompts (st : HelperState) (interactive : PartialAnswers) :
    HelperState × List CEvent :=
  match st.config with
  | some c =>
      ({ st with
         promptOrConfig := some (mergeConfig (extractPromptDefaults st.promptsSpec) c) },
       [.merged])
  | none =>
      match st.promptOrConfig with
      | none => ({ st with promptOrConfig := some interactive }, [.prompted])
      | some _ => (st, [])

/-! ## Dependency resolution

Embeds getLatestVersion (utils.ts) and ProjectBuilder.updatePackageJson
(builder/index.ts).  The npm registry is a function parameter mapping a
package reference to the stdout of npm view, or an error. -/

/-- getLatestVersion: shell out to npm view and trim the stdout; the
registry answer is the npmView parameter. -/
def getLatestVersion (npmView : String → Except String String)
    (pkg : String) : Except String String :=
  match npmView pkg with
  | .error e => .error e
  | .ok out => .ok out.trim

/-- The join of the per-reference lookups issued by updatePackageJson
through Promise.all: if any single lookup rejects, the whole join rejects
and yields no mapping at all; otherwise every reference is mapped to its
caret-style constraint. -/
def resolveAll (npmView : String → Except String String) :
    List String → Except String (List (String × String))
  | [] => .ok []
  | d :: ds =>
      match getLatestVersion npmView d with
      | .error e => .error e
      | .ok v =>
          match resolveAll npmView ds with
          | .error e => .error e
          | .ok rest => .ok ((d, "^" ++ v) :: rest)

/-- The metadata document (package.json): module-type flag, the two
dependency mappings, and the named scripts. -/
structure Pkg where
  ptype : Option String
  dependencies : List (String × String)
  devDependencies : List (String × String)
  scripts : List (String × String)
deriving DecidableEq, Repr

/-- A single-quote character, used inside the generated shell commands. -/
def sq : String := (Char.ofNat 39).toString

/-- The scripts mapping assembled by updatePackageJson: start, lint and
test, with build prepended for the statically-typed variant. -/
def buildScripts (lang : LANGUAGE) (feats : List FEATURES) : List (String × String) :=
  let base :=
    [("start", if lang = .typescript then "node dist/index.js" else "node src/index.js"),
     ("lint", if feats.contains .eslint then "eslint . --ext .ts,.js"
              else "echo " ++ sq ++ "no lint" ++ sq),
     ("test", if feats.contains .jest then "jest"
              else "echo " ++ sq ++ "no tests" ++ sq)]
  if lang = .typescript then ("build", "tsc && tsc-alias") :: base else base

/-- ProjectBuilder.updatePackageJson: set the module-type flag and the
scripts, then resolve the runtime references and the development references;
a rejection anywhere propagates out of the safe wrapper before the manifest
write, so nothing is persisted; on total success the manifest holding every
resolved entry is written.  The second component lists the manifests
written. -/
def updatePackageJsonRun (npmView : String → Except String String)
    (lang : LANGUAGE) (feats : List FEATURES) (pkg0 : Pkg)
    (deps devDeps : List String) : Except String Pkg × List Pkg :=
  let pkg1 : Pkg :=
    { ptype := if lang ≠ .typescript then some "module" else pkg0.ptype
      dependencies := pkg0.dependencies
      devDependencies := pkg0.devDependencies
      scripts := buildScripts lang feats }
  match resolveAll npmView deps with
  | .error e => (.error e, [])
  | .ok dent =>
      match resolveAll npmView devDeps with
      | .error e => (.error e, [])
      | .ok ddent =>
          let pkg2 : Pkg :=
            { pkg1 with
                dependencies := pkg1.dependencies ++ dent
                devDependencies := pkg1.devDependencies ++ ddent }
          (.ok pkg2, [pkg2])

/-! ## Package-manager detection and feature mapping

Embeds detectPackageManager, InitCommands, InstallCommands (utils.ts) and
ProjectBuilder.handleDependencies (builder/index.ts). -/

/-- PACKAGEMANAGER (utils.ts). -/
inductive PACKAGEMANAGER where
  | yarn
  | npm
  | pnpm
  | bun
deriving DecidableEq, Repr

/-- The string value of each manager in the source enum. -/
def pmName : PACKAGEMANAGER → String
  | .yarn => "yarn"
  | .npm => "npm"
  | .pnpm => "pnpm"
  | .bun => "bun"

/-- Object.values of the enum, in declaration order. -/
def pmValues : List PACKAGEMANAGER := [.yarn, .npm, .pnpm, .bun]

/-- InitCommands (utils.ts). -/
def InitCommands : PACKAGEMANAGER → String
  | .yarn => "yarn init -y"
  | .npm => "npm init -y"
  | .pnpm => "pnpm init"
  | .bun => "bun init"

/-- InstallCommands (utils.ts). -/
def InstallCommands : PACKAGEMANAGER → String
  | .yarn => "yarn install"
  | .npm => "npm install"
  | .pnpm => "pnpm install"
  | .bun => "bun install"

/-- JS String startsWith, on the underlying character lists. -/
def strStartsWith (s p : String) : Bool := p.data.isPrefixOf s.data

/-- detectPackageManager: read the user-agent hint (empty when absent), scan
the known managers in declaration order for one whose name the hint starts
with, and fall back to npm. -/
def detectPackageManager (ua : Option String) : PACKAGEMANAGER :=
  let s := ua.getD ""
  match pmValues.find? (fun pm => strStartsWith s (pmName pm)) with
  | some pm => pm
  | none => .npm

/-- The two accumulating dependency lists of BuilderHelper. -/
structure DepState where
  dependencies : List String
  devDependencies : List String
deriving DecidableEq, Repr

/-- The development packages the lint-tooling feature pushes. -/
def eslintDevDeps : List String :=
  ["eslint", "prettier", "@typescript-eslint/parser", "@typescript-eslint/eslint-plugin"]

/-- The development packages the test-framework feature pushes. -/
def jestDevDeps : List String := ["jest", "@types/jest", "ts-jest"]

/-- One arm of the switch in ProjectBuilder.handleDependencies. -/
def handleDepsStep (st : DepState) (f : FEATURES) : DepState :=
  match f with
  | .eslint => ⟨st.dependencies, st.devDependencies ++ eslintDevDeps⟩
  | .jest => ⟨st.dependencies, st.devDependencies ++ jestDevDeps⟩
  | f => ⟨st.dependencies ++ [featureTag f], st.devDependencies⟩

/-- ProjectBuilder.handleDependencies: map the switch over the selected
features, accumulating into the two lists. -/
def handleDependencies (st : DepState) (feats : List FEATURES) : DepState :=
  feats.foldl handleDepsStep st

/-- The runtime packages one feature contributes. -/
def depContrib : FEATURES → List String
  | .eslint => []
  | .jest => []
  | f => [featureTag f]

/-- The development packages one feature contributes. -/
def devContrib : FEATURES → List String
  | .eslint => eslintDevDeps
  | .jest => jestDevDeps
  | _ => []

/-- Whether an Except value is a success. -/
def exOk {E A : Type} : Except E A → Bool
  | .ok _ => true
  | .error _ => false

/-! ## Concrete instances used by the witnesses and counterexamples -/

/-- A world whose home directory already holds the target directory app
with one file inside it. -/
def c4World : World :=
  ⟨["home"], [["home"], ["home", "app"], ["home", "app", "data.txt"]]⟩

/-- A helper state holding a static configuration that selects the lint
feature, against the default question specification. -/
def c7State : HelperState := ⟨defaultPromptsL, some ⟨none, some [.eslint]⟩, none⟩

/-- Interactive answers for the prompt collaborator (never consulted on the
static-configuration path). -/
def c7Interactive : PartialAnswers := ⟨none, none⟩

/-- A registry in which the lookup for cors rejects and every other lookup
resolves. -/
def npmViewW : String → Except String String :=
  fun d => if d = "cors" then .error "network down" else .ok "1.0.0"

/-- An empty metadata document. -/
def pkgEmpty : Pkg := ⟨none, [], [], []⟩

/-- A ledger holding the three step shapes the builder registers: a file
removal, the project-directory removal, and the src-directory removal. -/
def c8Ledger : BLedger :=
  ⟨[.rmFiles [["package.json"]], .removeDir ["h"] "app", .rmSrc ["h", "app", "src"]], false⟩

/-- A world currently inside the target project directory. -/
def c8World : World := ⟨["h", "app"], [["h", "app"], ["h", "app", "package.json"]]⟩

/-! ## Theorems -/

/-- Registering actions one by one appends them to the ledger and leaves
the rolled-back flag untouched. -/
theorem trackStep_foldl (l : Ledger) (as : List RStep) :
    as.foldl trackStep l = ⟨l.steps ++ as, l.rolledBack⟩ := by
  induction as generalizing l with
  | nil => simp
  | cons a as ih => simp [ih, trackStep]

/-- C1: for every sequence of rollback actions registered via trackStep in
order a1, a2, ..., an, a triggered rollback invokes exactly those actions in
strict reverse-of-registration order an, ..., a2, a1; by construction of
rollbackRun this holds whether or not individual actions fail, since every
invocation is wrapped in try/catch. -/
theorem rollback_reverse_registration_order (as : List RStep) :
    (rollbackRun (ledgerOf as)).1 = (as.map (fun s => s.sid)).reverse := by
  rw [ledgerOf, trackStep_foldl]
  simp [rollbackRun]

/-- C2: rollback is idempotent: starting from any ledger state, a second
invocation performs no action and leaves the ledger exactly as the first
invocation left it; rollbackRun is moreover a total function, so neither
invocation raises. -/
theorem rollback_idempotent (l : Ledger) :
    (rollbackRun (rollbackRun l).2).1 = []
    ∧ (rollbackRun (rollbackRun l).2).2 = (rollbackRun l).2 := by
  cases hb : l.rolledBack <;> simp [rollbackRun, hb]

/-- C3 counterexample: safeSync does not run the rollback to completion
before re-raising.  With two tracked actions and a failing operation, the
action registered first (identifier 1) is still pending on the microtask
queue when the error reaches the caller, because safeSync does not await
the promise returned by rollback.  The claim as stated would require the
pending list to be empty. -/
theorem safeSync_rethrow_before_rollback_completes :
    (safeSyncRun ⟨[⟨1, false⟩, ⟨2, false⟩], false⟩ (Except.error "boom")).afterRaise = [1]
    ∧ (safeSyncRun ⟨[⟨1, false⟩, ⟨2, false⟩], false⟩ (Except.error "boom")).afterRaise ≠ [] :=
  ⟨rfl, List.cons_ne_nil _ _⟩

/-- C3 amended: safe runs the rollback to completion and then re-raises the
identical error, and returns a successful result unchanged.  safeSync
re-raises the identical error, but only initiates the rollback: when the
ledger is live and non-empty, exactly the most recently registered action
completes before the error reaches the caller, and the remaining actions
complete afterwards, the two parts together forming the full
reverse-of-registration sequence. -/
theorem safe_wrappers_error_and_result {E A : Type} :
    (∀ (l : Ledger) (a : A), @safeRun E A l (.ok a) = (.ok a, [], l))
  ∧ (∀ (l : Ledger) (e : E),
        @safeRun E A l (.error e) = (.error e, (rollbackRun l).1, (rollbackRun l).2))
  ∧ (∀ (l : Ledger) (e : E),
        (safeSyncRun l (.error e)).result = .error e
        ∧ (safeSyncRun l (.error e)).beforeRaise ++ (safeSyncRun l (.error e)).afterRaise
            = (rollbackRun l).1)
  ∧ (∀ (l : Ledger) (e : E) (s : RStep) (rest : List RStep),
        l.rolledBack = false → l.steps.reverse = s :: rest →
        (safeSyncRun l (.error e)).beforeRaise = [s.sid]
        ∧ (safeSyncRun l (.error e)).afterRaise = rest.map (fun t => t.sid))
  ∧ (∀ l : Ledger, @safeSyncRun E l (.ok ()) = ⟨.ok (), [], [], l⟩) := by
  refine ⟨fun l a => rfl, fun l e => rfl, fun l e => ?_, fun l e s rest hb hr => ?_,
    fun l => rfl⟩
  · cases hb : l.rolledBack with
    | true => simp [safeSyncRun, rollbackRun, hb]
    | false =>
        cases hr : l.steps.reverse with
        | nil => simp [safeSyncRun, rollbackRun, hb, hr]
        | cons s rest => simp [safeSyncRun, rollbackRun, hb, hr]
  · simp [safeSyncRun, hb, hr]

/-- Witness for the amended C3 theorem: with two live tracked actions, the
most recently registered one (identifier 4) is the only action completed
before the error reaches the caller. -/
theorem safe_wrappers_error_and_result_witness :
    (safeSyncRun (⟨[⟨3, true⟩, ⟨4, false⟩], false⟩ : Ledger) (Except.error "oops")).beforeRaise
      = [4] :=
  ((@safe_wrappers_error_and_result String Unit).2.2.2.1
      ⟨[⟨3, true⟩, ⟨4, false⟩], false⟩ "oops" ⟨4, false⟩ [⟨3, true⟩] rfl rfl).1

/-- C4 (evidence for the code bug): when the target directory already
exists with contents and the user declines to overwrite, the pipeline does
abort with the user-abort error — but because handleExistingDir registers
the directory-removal rollback step BEFORE prompting, the rollback that the
thrown error triggers deletes the pre-existing target directory, which the
claim (and the abort message itself) says must be left unchanged. -/
theorem user_decline_removes_preexisting_dir :
    (initDirPhase ["home"] "app" false ⟨[], false⟩ c4World).1 = .error "User aborted"
    ∧ fsExists c4World.fs ["home", "app"] = true
    ∧ fsExists (initDirPhase ["home"] "app" false ⟨[], false⟩ c4World).2.2.2.fs
        ["home", "app"] = false
    ∧ (Ev.rmRec ["home", "app"], (["home"] : Path))
        ∈ (initDirPhase ["home"] "app" false ⟨[], false⟩ c4World).2.1 :=
  ⟨rfl, rfl, by decide, by decide⟩

/-- If one reference in the list has a rejecting lookup, the joined
resolution rejects. -/
theorem resolveAll_error_of_mem (npmView : String → Except String String)
    (ds : List String) (d : String) (hd : d ∈ ds) (he : exOk (npmView d) = false) :
    exOk (resolveAll npmView ds) = false := by
  induction ds with
  | nil => cases hd
  | cons a ds ih =>
      cases hv : npmView a with
      | error e => simp [resolveAll, getLatestVersion, hv, exOk]
      | ok v =>
          rcases List.mem_cons.mp hd with h1 | h2
          · subst h1; rw [hv] at he; simp [exOk] at he
          · have hrec := ih h2
            cases hr : resolveAll npmView ds with
            | error e => simp [resolveAll, getLatestVersion, hv, hr, exOk]
            | ok rest => rw [hr] at hrec; simp [exOk] at hrec

/-- C5: dependency resolution is fail-fast and all-or-nothing: whenever any
single reference lookup (runtime or development) rejects, updatePackageJson
rejects and writes no manifest at all — the entries of the lookups that
succeeded are not persisted either. -/
theorem dependency_resolution_fail_fast
    (npmView : String → Except String String) (lang : LANGUAGE)
    (feats : List FEATURES) (pkg0 : Pkg) (deps devDeps : List String)
    (d : String) (hd : d ∈ deps ++ devDeps) (he : exOk (npmView d) = false) :
    exOk (updatePackageJsonRun npmView lang feats pkg0 deps devDeps).1 = false
    ∧ (updatePackageJsonRun npmView lang feats pkg0 deps devDeps).2 = [] := by
  rcases List.mem_append.mp hd with h1 | h2
  · have hres := resolveAll_error_of_mem npmView deps d h1 he
    cases hr : resolveAll npmView deps with
    | error e => simp [updatePackageJsonRun, hr, exOk]
    | ok vs => rw [hr] at hres; simp [exOk] at hres
  · have hres := resolveAll_error_of_mem npmView devDeps d h2 he
    cases hr : resolveAll npmView devDeps with
    | error e =>
        cases hr2 : resolveAll npmView deps with
        | error e2 => simp [updatePackageJsonRun, hr2, exOk]
        | ok vs => simp [updatePackageJsonRun, hr2, hr, exOk]
    | ok vs => rw [hr] at hres; simp [exOk] at hres

/-- Witness for C5: with a registry in which the cors lookup rejects, the
resolution over express and cors rejects and no manifest is written. -/
theorem dependency_resolution_fail_fast_witness :
    exOk (updatePackageJsonRun npmViewW .javascript [] pkgEmpty ["express", "cors"] []).1
      = false
    ∧ (updatePackageJsonRun npmViewW .javascript [] pkgEmpty ["express", "cors"] []).2 = [] :=
  dependency_resolution_fail_fast npmViewW .javascript [] pkgEmpty ["express", "cors"] []
    "cors" (by decide) (by decide)

/-- C6: when a static configuration is supplied, collectPrompts resolves
the configuration to the defaults extracted from the active question
specification overridden field-by-field by the explicit values: a field set
in the static configuration keeps its explicit value, an unset field takes
the extracted default; a question specification declaring a language
default and a features default extracts exactly those values; and in
particular the defaults language javascript (the dynamic variant) with
empty features, merged with an override selecting only the lint feature,
yield the dynamic variant with the lint feature. -/
theorem config_merge_defaults_override :
    (∀ (qs : List Question) (c iv : PartialAnswers) (po : Option PartialAnswers),
        ((collectPrompts ⟨qs, some c, po⟩ iv).1).promptOrConfig
          = some (mergeConfig (extractPromptDefaults qs) c))
  ∧ (∀ (d c : PartialAnswers) (l : LANGUAGE),
        c.language = some l → (mergeConfig d c).language = some l)
  ∧ (∀ d c : PartialAnswers, c.language = none → (mergeConfig d c).language = d.language)
  ∧ (∀ (d c : PartialAnswers) (fs : List FEATURES),
        c.features = some fs → (mergeConfig d c).features = some fs)
  ∧ (∀ d c : PartialAnswers, c.features = none → (mergeConfig d c).features = d.features)
  ∧ (∀ (l : LANGUAGE) (fs : List FEATURES),
        extractPromptDefaults
            [⟨some "language", .val (.lang l)⟩, ⟨some "features", .val (.feats fs)⟩]
          = ⟨some l, some fs⟩)
  ∧ mergeConfig ⟨some .javascript, some []⟩ ⟨none, some [.eslint]⟩
      = ⟨some .javascript, some [.eslint]⟩ := by
  refine ⟨fun qs c iv po => rfl, ?_, ?_, ?_, ?_, fun l fs => rfl, rfl⟩
  · intro d c l h; simp [mergeConfig, h, Option.orElse]
  · intro d c h; simp [mergeConfig, h, Option.orElse]
  · intro d c fs h; simp [mergeConfig, h, Option.orElse]
  · intro d c h; simp [mergeConfig, h, Option.orElse]

/-- Witness for C6: a set features field keeps its explicit value through
the merge. -/
theorem config_merge_defaults_override_witness :
    (mergeConfig ⟨some LANGUAGE.javascript, none⟩ ⟨none, some [FEATURES.eslint]⟩).features
      = some [FEATURES.eslint] :=
  config_merge_defaults_override.2.2.2.1 ⟨some .javascript, none⟩ ⟨none, some [.eslint]⟩
    [.eslint] rfl

/-- C7 counterexample: the resolved configuration is not returned without
re-performing the defaults merge.  With a static configuration present, a
second call to collectPrompts runs the merge branch again (it emits the
merged event rather than no event), so the claim that subsequent calls skip
the merge fails on this input. -/
theorem collectPrompts_remerges_on_second_call :
    (collectPrompts (collectPrompts c7State c7Interactive).1 c7Interactive).2
      = [CEvent.merged]
    ∧ (collectPrompts (collectPrompts c7State c7Interactive).1 c7Interactive).2 ≠ [] :=
  ⟨rfl, List.cons_ne_nil _ _⟩

/-- C7 amended: after a first call to collectPrompts, a subsequent call
never re-prompts the user and returns the identical resolved state: on the
interactive path the cached configuration is reused untouched, and on the
static-configuration path the defaults merge is re-performed but, being
pure, deterministically reproduces the same configuration. -/
theorem collectPrompts_cached_no_reprompt (st : HelperState) (iv iv2 : PartialAnswers) :
    CEvent.prompted ∉ (collectPrompts (collectPrompts st iv).1 iv2).2
    ∧ (collectPrompts (collectPrompts st iv).1 iv2).1 = (collectPrompts st iv).1 := by
  obtain ⟨qs, cfg, po⟩ := st
  cases cfg with
  | some c => simp [collectPrompts]
  | none =>
      cases po with
      | none => simp [collectPrompts]
      | some p => simp [collectPrompts]

/-- Every event emitted by the file-removal rollback loop is a single-file
removal. -/
theorem rmFilesStep_foldl_shape (rels : List Path) (acc : Trace × World)
    (hacc : ∀ e c, (e, c) ∈ acc.1 → ∃ p, e = Ev.rmFile p) :
    ∀ e c, (e, c) ∈ (rels.foldl rmFilesStep acc).1 → ∃ p, e = Ev.rmFile p := by
  induction rels generalizing acc with
  | nil => exact hacc
  | cons rel rels ih =>
      refine ih (rmFilesStep acc rel) ?_
      intro e c hec
      dsimp only [rmFilesStep] at hec
      split at hec
      · rcases List.mem_append.mp hec with h1 | h2
        · exact hacc e c h1
        · simp at h2
          exact ⟨_, h2.1⟩
      · exact hacc e c hec

/-- In the trace of one registered rollback step that passes the shape
check, a recursive removal of the target path only ever executes with the
working directory set to the base path. -/
theorem runRegStep_rmRec_cwd (b : Path) (n : String) (w : World) (s : RegStep)
    (hs : stepOkFor b n s = true) :
    ∀ c, (Ev.rmRec (b ++ [n]), c) ∈ (runRegStep w s).1 → c = b := by
  intro c hc
  cases s with
  | removeDir b2 n2 =>
      simp only [stepOkFor, Bool.and_eq_true, beq_iff_eq] at hs
      obtain ⟨hb, hn⟩ := hs
      subst hb; subst hn
      dsimp only [runRegStep] at hc
      split at hc
      · simp at hc
        exact hc
      · cases hc
  | rmFiles rels =>
      have hsh := rmFilesStep_foldl_shape rels ([], w) (by intro e c h; cases h)
      obtain ⟨p, hp⟩ := hsh _ _ hc
      simp at hp
  | rmSrc sp =>
      simp only [stepOkFor, Bool.not_eq_true', beq_eq_false_iff_ne, ne_eq] at hs
      simp only [runRegStep, List.mem_singleton, Prod.mk.injEq, Ev.rmRec.injEq] at hc
      exact absurd hc.1.symm hs

/-- In the trace of a list of registered rollback steps all passing the
shape check, a recursive removal of the target path only ever executes with
the working directory set to the base path. -/
theorem runRegSteps_rmRec_cwd (b : Path) (n : String) (steps : List RegStep) (w : World)
    (hs : steps.all (stepOkFor b n) = true) :
    ∀ c, (Ev.rmRec (b ++ [n]), c) ∈ (runRegSteps w steps).1 → c = b := by
  revert hs
  induction steps generalizing w with
  | nil => intro hs c hc; cases hc
  | cons s ss ih =>
      intro hs c hc
      simp only [List.all_cons, Bool.and_eq_true] at hs
      dsimp only [runRegSteps] at hc
      rcases List.mem_append.mp hc with h1 | h2
      · exact runRegStep_rmRec_cwd b n w s hs.1 c h1
      · exact ih (runRegStep w s).2 hs.2 c h2

/-- C8: during every rollback whose registered steps have the shapes the
builder creates (the project-directory removal targeting the base path and
project name, file removals, and a src-directory removal below the target),
each recursive removal of the target location executes with the working
directory restored to the base path, which is not inside the target — the
removal is never attempted while the target is still the active working
directory. -/
theorem rollback_chdir_before_target_removal (pp b : Path) (n : String)
    (l : BLedger) (w : World) (hs : l.steps.all (stepOkFor b n) = true) :
    ∀ c, (Ev.rmRec (b ++ [n]), c) ∈ (rollbackWorld pp l w).1 →
      c = b ∧ (b ++ [n]).isPrefixOf c = false := by
  intro c hc
  have hcb : c = b := by
    dsimp only [rollbackWorld] at hc
    split at hc
    · cases hc
    · rcases List.mem_append.mp hc with h1 | h2
      · dsimp only [rollbackGuard] at h1
        split at h1
        · simp at h1
        · cases h1
      · refine runRegSteps_rmRec_cwd b n l.steps.reverse w ?_ c h2
        simp only [List.all_eq_true] at hs ⊢
        intro x hx
        exact hs x (List.mem_reverse.mp hx)
  refine ⟨hcb, ?_⟩
  rw [hcb]
  by_contra hpre
  rw [Bool.not_eq_false] at hpre
  have hp : (b ++ [n]) <+: b := List.isPrefixOf_iff_prefix.mp hpre
  have hlen := hp.length_le
  simp only [List.length_append, List.length_singleton] at hlen
  omega

/-- Witness for C8: in the rollback of a ledger holding a file removal, the
project-directory removal and a src removal, starting inside the target
directory, the removal of the target runs with the working directory at the
base path. -/
theorem rollback_chdir_before_target_removal_witness :
    (["h"] : Path) = ["h"] ∧ ((["h"] ++ ["app"] : Path).isPrefixOf ["h"]) = false :=
  rollback_chdir_before_target_removal ["h", "app"] ["h"] "app" c8Ledger c8World
    (by decide) ["h"] (by decide)

/-- C9: package-manager detection is total and always yields one of the
known managers; when the environment hint is absent, or does not begin with
any known manager name, it yields npm; consequently every lookup in the
init-command and install-command tables is defined (a non-empty command
string). -/
theorem detectPackageManager_total_default_npm :
    (∀ ua : Option String, detectPackageManager ua ∈ pmValues)
  ∧ detectPackageManager none = .npm
  ∧ (∀ s : String, (∀ pm ∈ pmValues, strStartsWith s (pmName pm) = false) →
        detectPackageManager (some s) = .npm)
  ∧ (∀ ua : Option String,
        0 < (InitCommands (detectPackageManager ua)).length
        ∧ 0 < (InstallCommands (detectPackageManager ua)).length) := by
  have hall : ∀ pm : PACKAGEMANAGER, pm ∈ pmValues := by
    intro pm; cases pm <;> simp [pmValues]
  refine ⟨fun ua => hall _, rfl, ?_, ?_⟩
  · intro s h
    have hnone : pmValues.find? (fun pm => strStartsWith s (pmName pm)) = none := by
      apply List.find?_eq_none.mpr
      intro pm hpm
      simp [h pm hpm]
    dsimp only [detectPackageManager, Option.getD]
    rw [hnone]
  · intro ua
    cases detectPackageManager ua <;> exact ⟨by decide, by decide⟩

/-- Witness for C9: the hint berry begins with no known manager name, so
detection falls back to npm. -/
theorem detectPackageManager_total_default_npm_witness :
    detectPackageManager (some "berry") = .npm :=
  detectPackageManager_total_default_npm.2.2.1 "berry" (by decide)

/-- One arm of the feature switch extends the two lists by exactly the
contributions of that feature. -/
theorem handleDepsStep_eq (st : DepState) (f : FEATURES) :
    handleDepsStep st f
      = ⟨st.dependencies ++ depContrib f, st.devDependencies ++ devContrib f⟩ := by
  cases f <;> simp [handleDepsStep, depContrib, devContrib]

/-- handleDependencies extends the two lists by the concatenation of the
per-feature contributions, in selection order. -/
theorem handleDependencies_eq (st : DepState) (feats : List FEATURES) :
    handleDependencies st feats
      = ⟨st.dependencies ++ (feats.map depContrib).flatten,
         st.devDependencies ++ (feats.map devContrib).flatten⟩ := by
  induction feats generalizing st with
  | nil => simp [handleDependencies]
  | cons f fs ih =>
      have h1 : handleDependencies st (f :: fs)
          = handleDependencies (handleDepsStep st f) fs := rfl
      rw [h1, ih, handleDepsStep_eq]
      simp

/-- C10: the feature-to-dependency mapping partitions deterministically:
for every selected feature list the result extends the accumulators by the
contribution of each feature in order; the lint-tooling feature contributes
exactly eslint, prettier and the two typescript-eslint packages to the
development set, the test-framework feature contributes exactly jest, its
types package and ts-jest to the development set, every other feature is
added verbatim (its own tag) to the runtime set, and no feature contributes
to both sets. -/
theorem handleDependencies_partition :
    (∀ (st : DepState) (feats : List FEATURES),
        handleDependencies st feats
          = ⟨st.dependencies ++ (feats.map depContrib).flatten,
             st.devDependencies ++ (feats.map devContrib).flatten⟩)
  ∧ depContrib .eslint = [] ∧ devContrib .eslint = eslintDevDeps
  ∧ depContrib .jest = [] ∧ devContrib .jest = jestDevDeps
  ∧ (∀ f : FEATURES, f ≠ .eslint → f ≠ .jest →
        depContrib f = [featureTag f] ∧ devContrib f = [])
  ∧ (∀ f : FEATURES, depContrib f = [] ∨ devContrib f = []) := by
  refine ⟨handleDependencies_eq, rfl, rfl, rfl, rfl, ?_, ?_⟩
  · intro f h1 h2
    cases f with
    | eslint => exact absurd rfl h1
    | jest => exact absurd rfl h2
    | zod => exact ⟨rfl, rfl⟩
  · intro f
    cases f with
    | eslint => exact Or.inl rfl
    | jest => exact Or.inl rfl
    | zod => exact Or.inr rfl

/-- Witness for C10: a feature other than lint-tooling and test-framework
is added verbatim to the runtime set and contributes nothing to the
development set. -/
theorem handleDependencies_partition_witness :
    depContrib FEATURES.zod = [featureTag FEATURES.zod] ∧ devContrib FEATURES.zod = [] :=
  handleDependencies_partition.2.2.2.2.2.1 FEATURES.zod (by decide) (by decide)

end CreateExpressApp
